import Mathlib

/-!
Shallow embedding of the license-resolution engine in `src/main.go` of
perolo/golicense (function `realMain`, the cache types `moduleVersionLicense`,
`cachedModule`, `cacheFile`, and `readFile`).

Modelling conventions:
* Go strings are `String`, `time.Time` values are `Nat` clock ticks, and a
  run's `time.Now()` readings are a single parameter `now`.
* `license.Find` and `license.Translate` live outside `src/main.go`; the
  engine calls them as black boxes, so they are parameters
  `find : Module → Option License × Option String` (license-or-nil,
  error-or-nil) and `translate : Module → Module`.
* `os.Exit(1)` (the cache hash-mismatch abort) is `Except.error ()`; it
  short-circuits the run and skips the shutdown cache flush.
* The Go map `cacheDataLookup` stores struct copies of entries of
  `cacheData.Modules` whose `VerLic` slice headers alias the backing arrays
  of the corresponding `cacheData.Modules` entries (see `readFile`).  During
  a run the map never gains or loses keys, so it is modelled as the fixed
  function `lookupIndex c0 : String → Option Nat` giving, for a path, the
  index of the last entry with that path in the loaded cache list, exactly
  as Go map insertion in `readFile` lets the last entry win.  In-place
  writes through the shared slice (`ccc.VerLic[index].LastUsed = ...`) are
  modelled as updates of the indexed entry of the modules list.
* Goroutines are sequentialised in input order; the claims proved here do
  not depend on completion order.  The shared `count` variable is also
  incremented (racily) inside each goroutine; the model takes the
  interleaving in which the spawn loop finishes before any goroutine body
  runs, which spawns the longest possible prefix of the module list.
-/

namespace Golicense

/-- `module.Module` from github.com/mitchellh/golicense/module: a dependency
identity as extracted from the binary. -/
structure Module where
  path : String
  version : String
  hash : String
deriving DecidableEq, Repr

/-- `license.License`: a resolved license name and SPDX id. -/
structure License where
  name : String
  spdx : String
deriving DecidableEq, Repr

/-- `moduleVersionLicense` in main.go (one cache sub-record). -/
structure ModuleVersionLicense where
  version : String
  license : String
  spdx : String
  hash : String
  created : Nat
  lastUsed : Nat
deriving DecidableEq, Repr

/-- `cachedModule` in main.go (one cache entry, keyed by module path). -/
structure CachedModule where
  path : String
  verLic : List ModuleVersionLicense
deriving DecidableEq, Repr

/-- Result of one module goroutine body: the cache list after the step, the
`lic`/`err` pair passed to `out.Finish`, and how many `license.Find` /
`license.Translate` invocations the step performed. -/
structure StepOut where
  modules : List CachedModule
  lic : Option License
  err : Option String
  finderCalls : Nat
  translateCalls : Nat
deriving DecidableEq, Repr

/-- One `out.Finish(&m, lic, err)` event, with the finder-invocation count of
the module's resolution attached. -/
structure Outcome where
  mod : Module
  lic : Option License
  err : Option String
  finderCalls : Nat
deriving DecidableEq, Repr

/-- Point update of a list (the model of an in-place write through a Go
slice); out-of-range indices leave the list unchanged. -/
def updateAt {α : Type} (f : α → α) : Nat → List α → List α
  | _, [] => []
  | 0, a :: rest => f a :: rest
  | k+1, a :: rest => a :: updateAt f k rest

/-- `readFile`: `for _, cc := range cacheData.Modules { cacheDataLookup[cc.Path] = cc }`.
Map insertion lets the last entry for a path win, so the lookup resolves a
path to the index of the last entry with that path. -/
def lookupIndexAux (p : String) : List CachedModule → Nat → Option Nat
  | [], _ => none
  | c :: rest, k =>
    match lookupIndexAux p rest (k+1) with
    | some j => some j
    | none => if c.path = p then some k else none

/-- The `cacheDataLookup` map built by `readFile` from the loaded cache. -/
def lookupIndex (mods : List CachedModule) (p : String) : Option Nat :=
  lookupIndexAux p mods 0

/-- The scan `for vvk, vv := range cca.VerLic` in `realMain`: every sub-record
whose version equals the module's version is inspected; a hash mismatch is
`os.Exit(1)` (`Except.error ()`); otherwise `found`/`index` are overwritten,
so the accumulator ends at the last version match.  `k` is the index of the
list head within the whole entry. -/
def findScan (m : Module) : List ModuleVersionLicense → Nat →
    Option (Nat × ModuleVersionLicense) → Except Unit (Option (Nat × ModuleVersionLicense))
  | [], _, acc => Except.ok acc
  | vv :: rest, k, acc =>
    if vv.version = m.version then
      if vv.hash ≠ m.hash then Except.error ()
      else findScan m rest (k+1) (some (k, vv))
    else findScan m rest (k+1) acc

/-- Reference scan with the hash check stripped: the last `(index, record)`
whose version matches the module's version.  Used to state what the engine
returns when no integrity violation fires. -/
def lastMatchAux (m : Module) : List ModuleVersionLicense → Nat →
    Option (Nat × ModuleVersionLicense) → Option (Nat × ModuleVersionLicense)
  | [], _, acc => acc
  | vv :: rest, k, acc =>
    if vv.version = m.version then lastMatchAux m rest (k+1) (some (k, vv))
    else lastMatchAux m rest (k+1) acc

/-- Index and record of the last sub-record of `l` matching the module's
version, if any. -/
def lastVersionMatch (m : Module) (l : List ModuleVersionLicense) :
    Option (Nat × ModuleVersionLicense) :=
  lastMatchAux m l 0 none

/-- The in-place write `ccc.VerLic[index].LastUsed = time.Now()` on one
sub-record. -/
def touchRecord (now : Nat) (r0 : ModuleVersionLicense) : ModuleVersionLicense :=
  { r0 with lastUsed := now }

/-- The same write seen at the cache-entry level: the slice backing array is
shared with `cacheData.Modules[i]`, so the entry's record list changes. -/
def touchEntry (now index : Nat) (c : CachedModule) : CachedModule :=
  { c with verLic := updateAt (touchRecord now) index c.verLic }

/-- The find-then-translate-and-find snippet that `realMain` duplicates
verbatim in the cache-miss path (lines 267-269) and the no-cache path
(lines 298-300):

    lic, err = license.Find(ctx, m, fs)
    if lic == nil || err != nil { lic, err = license.Find(ctx, license.Translate(ctx, m, ts), fs) }

Returns the final `(lic, err)` pair together with the number of
`license.Find` and `license.Translate` invocations performed. -/
def lookupChain (find : Module → Option License × Option String)
    (translate : Module → Module) (m : Module) :
    (Option License × Option String) × Nat × Nat :=
  let r1 := find m
  let second := r1.1.isNone || r1.2.isSome
  ((if second then find (translate m) else r1),
   (if second then 2 else 1),
   (if second then 1 else 0))

/-- The cache-miss arm of the goroutine body (lines 264-292): run the lookup
chain; on a record with no error, append a new sub-record.  If the path is
already a key of `cacheDataLookup` (`ok2`), the append lands in `c2`, a
struct copy of the map value that is never stored back, so nothing changes;
otherwise a brand-new `cachedModule` is appended to `cacheData.Modules`
(but not to `cacheDataLookup`). -/
def cacheMissArm (find : Module → Option License × Option String)
    (translate : Module → Module) (now : Nat)
    (lookup : String → Option Nat)
    (modules : List CachedModule) (m : Module) : StepOut :=
  match lookupChain find translate m with
  | (r, fc, tc) =>
    match r with
    | (some l, none) =>
      match lookup m.path with
      | some _ =>
        { modules := modules, lic := some l, err := none
        , finderCalls := fc, translateCalls := tc }
      | none =>
        { modules := modules ++
            [{ path := m.path
             , verLic := [{ version := m.version, license := l.name
                          , spdx := l.spdx, hash := m.hash
                          , created := now, lastUsed := now }] }]
        , lic := some l, err := none, finderCalls := fc, translateCalls := tc }
    | (l, e) =>
      { modules := modules, lic := l, err := e
      , finderCalls := fc, translateCalls := tc }

/-- Body of the per-module goroutine in `realMain` (lines 228-304),
sequentialised.  `cacheConfigured` is `flagCache != ""`; `lookup` is the
`cacheDataLookup` map as path-to-index (see module docstring); `modules` is
`cacheData.Modules`. -/
def resolveOne (cacheConfigured : Bool)
    (find : Module → Option License × Option String)
    (translate : Module → Module)
    (now : Nat)
    (lookup : String → Option Nat)
    (modules : List CachedModule)
    (m : Module) : Except Unit StepOut :=
  match cacheConfigured with
  | true =>
    -- cca, ok := cacheDataLookup[m.Path]; if ok, scan VerLic (os.Exit(1) on
    -- hash mismatch for a matching version, else remember the last match)
    let hit : Except Unit (Option (Nat × Nat × ModuleVersionLicense)) :=
      match lookup m.path with
      | none => Except.ok none
      | some i =>
        match modules.get? i with
        | none => Except.ok none  -- unreachable: lookup indices point into modules
        | some cca =>
          match findScan m cca.verLic 0 none with
          | Except.error () => Except.error ()
          | Except.ok none => Except.ok none
          | Except.ok (some (index, vv)) => Except.ok (some (i, index, vv))
    match hit with
    | Except.error () => Except.error ()
    | Except.ok (some (i, index, vv)) =>
      -- ccc.VerLic[index].LastUsed = time.Now() writes through the slice
      -- shared with cacheData.Modules[i]; lic is read from the same record
      Except.ok
        { modules := updateAt (touchEntry now index) i modules
        , lic := some { name := vv.license, spdx := vv.spdx }
        , err := none, finderCalls := 0, translateCalls := 0 }
    | Except.ok none =>
      Except.ok (cacheMissArm find translate now lookup modules m)
  | false =>
    match lookupChain find translate m with
    | (r, fc, tc) =>
      Except.ok { modules := modules, lic := r.1, err := r.2
                , finderCalls := fc, translateCalls := tc }

/-- The spawned goroutines run to completion (the `wg.Wait` barrier),
sequentialised in list order.  An `os.Exit(1)` in any task kills the whole
process: no later outcome, no cache flush. -/
def runLoop (cacheConfigured : Bool)
    (find : Module → Option License × Option String)
    (translate : Module → Module)
    (now : Nat)
    (lookup : String → Option Nat) :
    List CachedModule → List Module → Except Unit (List CachedModule × List Outcome)
  | modules, [] => Except.ok (modules, [])
  | modules, m :: rest =>
    match resolveOne cacheConfigured find translate now lookup modules m with
    | Except.error () => Except.error ()
    | Except.ok r =>
      match runLoop cacheConfigured find translate now lookup r.modules rest with
      | Except.error () => Except.error ()
      | Except.ok (mods2, outs) =>
        Except.ok (mods2,
          { mod := m, lic := r.lic, err := r.err, finderCalls := r.finderCalls } :: outs)

/-- `allMods` in `realMain`: a set keyed by the whole `module.Module` value
(path, version, hash); insertion order models Go's arbitrary map iteration
order. -/
def dedupMods (mods : List Module) : List Module :=
  mods.foldl (fun acc m => if m ∈ acc then acc else acc ++ [m]) []

/-- The spawn loop of `realMain`: `count++` per iteration, spawn, then
`if count > 5 { break }`.  This is the interleaving in which the loop runs
before any goroutine body's own `count++`; goroutine increments can only
truncate the spawned prefix further. -/
def spawnLoop : Nat → List Module → List Module
  | _, [] => []
  | count, m :: rest =>
    let count2 := count + 1
    m :: (if 5 < count2 then [] else spawnLoop count2 rest)

/-- The modules that actually get a goroutine. -/
def spawnedModules (mods : List Module) : List Module :=
  spawnLoop 0 mods

/-- The engine end to end: `readFile` (build `cacheDataLookup` from the
loaded cache `c0`), dedup, spawn loop, all tasks, `wg.Wait`.  On `Except.ok`
the first component is `cacheData.Modules` as serialized by the shutdown
`json.Marshal`/`WriteFile`; `Except.error` is the `os.Exit(1)` abort, which
skips the flush. -/
def engineRun (cacheConfigured : Bool)
    (find : Module → Option License × Option String)
    (translate : Module → Module)
    (now : Nat)
    (c0 : List CachedModule)
    (mods : List Module) : Except Unit (List CachedModule × List Outcome) :=
  runLoop cacheConfigured find translate now (lookupIndex c0) c0
    (spawnedModules (dedupMods mods))

/-- Total number of cache sub-records across all entries. -/
def totalSubRecords (mods : List CachedModule) : Nat :=
  (mods.map (fun c => c.verLic.length)).sum

/-! ### Semaphore model

Modelled from the spec: `NewSemaphore(5)`, `sem.Acquire()` and
`sem.Release()` are implemented outside `src/main.go`.  Per spec section 5,
the semaphore is a counting semaphore capped at 5 concurrently-running
tasks: each spawned goroutine acquires a slot before any cache/finder/
translator work and releases it before returning.  A task is `waiting`
before `Acquire`, `running` while holding a slot, `done` after `Release`. -/

inductive TaskPhase
  | waiting
  | running
  | done
deriving DecidableEq, Repr

/-- Number of tasks currently holding a semaphore slot. -/
def runningCount : List TaskPhase → Nat
  | [] => 0
  | TaskPhase.running :: ts => runningCount ts + 1
  | TaskPhase.waiting :: ts => runningCount ts
  | TaskPhase.done :: ts => runningCount ts

/-- Interleaving steps of the spawned tasks: a waiting task may acquire only
while fewer than 5 slots are held; a running task may release and return. -/
inductive SemStep : List TaskPhase → List TaskPhase → Prop
  | acquire (pre post : List TaskPhase) :
      runningCount (pre ++ TaskPhase.waiting :: post) < 5 →
      SemStep (pre ++ TaskPhase.waiting :: post) (pre ++ TaskPhase.running :: post)
  | release (pre post : List TaskPhase) :
      SemStep (pre ++ TaskPhase.running :: post) (pre ++ TaskPhase.done :: post)

/-! ### Concrete inputs used by evaluation theorems and witnesses -/

/-- A license value returned by the modelled remote finder. -/
def bsd : License := { name := "BSD-3-Clause", spdx := "BSD-3-Clause" }

/-- A finder chain that resolves every module to `bsd` with no error. -/
def findBSD : Module → Option License × Option String := fun _ => (some bsd, none)

/-- A loaded cache with one entry for path `p` holding only version `v1`. -/
def cacheP : List CachedModule :=
  [{ path := "p"
   , verLic := [{ version := "v1", license := "MIT", spdx := "MIT"
                , hash := "h1", created := 0, lastUsed := 0 }] }]

/-- A module whose path has a cache entry but whose version is not cached. -/
def modV2 : Module := { path := "p", version := "v2", hash := "h2" }

/-- Seven modules with distinct paths. -/
def sevenMods : List Module :=
  [ { path := "a", version := "v", hash := "h" }
  , { path := "b", version := "v", hash := "h" }
  , { path := "c", version := "v", hash := "h" }
  , { path := "d", version := "v", hash := "h" }
  , { path := "e", version := "v", hash := "h" }
  , { path := "f", version := "v", hash := "h" }
  , { path := "g", version := "v", hash := "h" } ]

/-- Two extracted modules sharing path and version but not hash. -/
def mA : Module := { path := "p", version := "v", hash := "h1" }

/-- Second module of the shared-identity pair. -/
def mB : Module := { path := "p", version := "v", hash := "h2" }

/-- A cached sub-record for version `v` with hash `h`, last used at tick 3. -/
def c3rec : ModuleVersionLicense :=
  { version := "v", license := "L", spdx := "S", hash := "h"
  , created := 0, lastUsed := 3 }

/-- A cache entry for path `p` holding only `c3rec`. -/
def c3entry : CachedModule := { path := "p", verLic := [c3rec] }

/-- A loaded cache consisting of `c3entry` alone. -/
def c3cache : List CachedModule := [c3entry]

/-- The module that hits `c3rec` exactly (same path, version and hash). -/
def c3mod : Module := { path := "p", version := "v", hash := "h" }

/-- A cached sub-record whose hash `h1` will disagree with a module hash. -/
def c4rec : ModuleVersionLicense :=
  { version := "v", license := "L", spdx := "S", hash := "h1"
  , created := 0, lastUsed := 0 }

/-- A loaded cache whose only sub-record for `(p, v)` has hash `h1`. -/
def c4cache : List CachedModule := [{ path := "p", verLic := [c4rec] }]

/-- A module with the cached version `v` but a different hash `h2`. -/
def c4mod : Module := { path := "p", version := "v", hash := "h2" }

/-- First of two same-version sub-records with matching hashes. -/
def c10recA : ModuleVersionLicense :=
  { version := "v", license := "A", spdx := "SA", hash := "h"
  , created := 0, lastUsed := 0 }

/-- Second (later in list order) of the two same-version sub-records. -/
def c10recB : ModuleVersionLicense :=
  { version := "v", license := "B", spdx := "SB", hash := "h"
  , created := 0, lastUsed := 0 }

/-- A cache entry holding two sub-records for the same version `v`. -/
def c10cache : List CachedModule :=
  [{ path := "p", verLic := [c10recA, c10recB] }]

/-! ### Helper lemmas -/

theorem updateAt_get_self {α : Type} (f : α → α) (l : List α) :
    ∀ (i : Nat) (a : α), l.get? i = some a → (updateAt f i l).get? i = some (f a) := by
  induction l with
  | nil => intro i a h; simp at h
  | cons b rest ih =>
    intro i a h
    cases i with
    | zero =>
      injection h with h2
      subst h2
      rfl
    | succ k =>
      exact ih k a h

theorem lastMatchAux_of_noMatch (m : Module) (l : List ModuleVersionLicense)
    (h : ∀ u ∈ l, u.version ≠ m.version) :
    ∀ (s : Nat) (acc : Option (Nat × ModuleVersionLicense)),
      lastMatchAux m l s acc = acc := by
  induction l with
  | nil => intro s acc; rfl
  | cons vv rest ih =>
    intro s acc
    have hvv : vv.version ≠ m.version := h vv (by simp)
    simp only [lastMatchAux, if_neg hvv]
    exact ih (fun u hu => h u (by simp [hu])) (s+1) acc

theorem lastMatchAux_of_uniqueMatch (m : Module) (l : List ModuleVersionLicense) :
    l.Pairwise (fun a b => a.version ≠ b.version) →
    ∀ (k : Nat) (vv : ModuleVersionLicense), l.get? k = some vv →
      vv.version = m.version →
      ∀ (s : Nat) (acc : Option (Nat × ModuleVersionLicense)),
        lastMatchAux m l s acc = some (s + k, vv) := by
  induction l with
  | nil => intro _ k vv h; simp at h
  | cons a rest ih =>
    intro hp k vv hk hv s acc
    rcases List.pairwise_cons.mp hp with ⟨ha, hrest⟩
    cases k with
    | zero =>
      injection hk with hk2
      subst hk2
      simp only [lastMatchAux, if_pos hv]
      have hnone : ∀ u ∈ rest, u.version ≠ m.version := by
        intro u hu heq
        exact ha u hu (hv.trans heq.symm)
      rw [lastMatchAux_of_noMatch m rest hnone (s+1) (some (s, a))]
      simp
    | succ k2 =>
      have hk2 : rest.get? k2 = some vv := hk
      have hvvmem : vv ∈ rest := List.get?_mem hk2
      have hane : a.version ≠ m.version := fun heq => ha vv hvvmem (heq.trans hv.symm)
      simp only [lastMatchAux, if_neg hane]
      rw [ih hrest k2 vv hk2 hv (s+1) acc]
      have harith : s + 1 + k2 = s + (k2 + 1) := by omega
      rw [harith]

theorem findScan_of_hashOk (m : Module) (l : List ModuleVersionLicense)
    (h : ∀ u ∈ l, u.version = m.version → u.hash = m.hash) :
    ∀ (s : Nat) (acc : Option (Nat × ModuleVersionLicense)),
      findScan m l s acc = Except.ok (lastMatchAux m l s acc) := by
  induction l with
  | nil => intro s acc; rfl
  | cons vv rest ih =>
    intro s acc
    by_cases hv : vv.version = m.version
    · have hh : vv.hash = m.hash := h vv (by simp) hv
      simp only [findScan, lastMatchAux, if_pos hv, hh, ne_eq, not_true_eq_false, if_false]
      exact ih (fun u hu => h u (by simp [hu])) (s+1) (some (s, vv))
    · simp only [findScan, lastMatchAux, if_neg hv]
      exact ih (fun u hu => h u (by simp [hu])) (s+1) acc

theorem findScan_of_mismatch (m : Module) (l : List ModuleVersionLicense)
    (u : ModuleVersionLicense) (hu : u ∈ l)
    (huv : u.version = m.version) (huh : u.hash ≠ m.hash) :
    ∀ (s : Nat) (acc : Option (Nat × ModuleVersionLicense)),
      findScan m l s acc = Except.error () := by
  induction l with
  | nil => simp at hu
  | cons vv rest ih =>
    intro s acc
    rcases List.mem_cons.mp hu with rfl | hmem
    · simp [findScan, huv, huh]
    · by_cases hvv : vv.version = m.version
      · by_cases hvh : vv.hash = m.hash
        · simp only [findScan, if_pos hvv, hvh, ne_eq, not_true_eq_false, if_false]
          exact ih hmem (s+1) (some (s, vv))
        · simp [findScan, hvv, hvh]
      · simp only [findScan, if_neg hvv]
        exact ih hmem (s+1) acc

theorem hashOk_of_pairwise (m : Module) (l : List ModuleVersionLicense) :
    l.Pairwise (fun a b => a.version ≠ b.version) →
    ∀ (k : Nat) (vv : ModuleVersionLicense), l.get? k = some vv →
      vv.version = m.version → vv.hash = m.hash →
      ∀ u ∈ l, u.version = m.version → u.hash = m.hash := by
  induction l with
  | nil => intro _ k vv h; simp at h
  | cons a rest ih =>
    intro hp k vv hk hv hh u hu huv
    rcases List.pairwise_cons.mp hp with ⟨ha, hrest⟩
    rcases List.mem_cons.mp hu with rfl | hmem
    · cases k with
      | zero =>
        injection hk with hk2
        subst hk2
        exact hh
      | succ k2 =>
        have hk2 : rest.get? k2 = some vv := hk
        exact absurd (huv.trans hv.symm) (ha vv (List.get?_mem hk2))
    · cases k with
      | zero =>
        injection hk with hk2
        subst hk2
        exact absurd (hv.trans huv.symm) (ha u hmem)
      | succ k2 =>
        have hk2 : rest.get? k2 = some vv := hk
        exact ih hrest k2 vv hk2 hv hh u hmem huv

theorem runningCount_append (l1 l2 : List TaskPhase) :
    runningCount (l1 ++ l2) = runningCount l1 + runningCount l2 := by
  induction l1 with
  | nil => simp [runningCount]
  | cons t rest ih =>
    cases t with
    | waiting =>
      show runningCount (rest ++ l2) = runningCount rest + runningCount l2
      exact ih
    | running =>
      show runningCount (rest ++ l2) + 1 = runningCount rest + 1 + runningCount l2
      rw [ih]
      omega
    | done =>
      show runningCount (rest ++ l2) = runningCount rest + runningCount l2
      exact ih

theorem runningCount_replicate (n : Nat) :
    runningCount (List.replicate n TaskPhase.waiting) = 0 := by
  induction n with
  | zero => rfl
  | succ k ih => simpa [List.replicate_succ, runningCount] using ih

theorem semStep_bound {s t : List TaskPhase} (h : SemStep s t)
    (hs : runningCount s ≤ 5) : runningCount t ≤ 5 := by
  cases h with
  | acquire pre post hlt =>
    have h1 : runningCount (pre ++ TaskPhase.waiting :: post) =
        runningCount pre + runningCount post := by
      simp [runningCount_append, runningCount]
    have h2 : runningCount (pre ++ TaskPhase.running :: post) =
        runningCount pre + runningCount post + 1 := by
      simp [runningCount_append, runningCount]
      omega
    omega
  | release pre post =>
    have h1 : runningCount (pre ++ TaskPhase.running :: post) =
        runningCount pre + runningCount post + 1 := by
      simp [runningCount_append, runningCount]
      omega
    have h2 : runningCount (pre ++ TaskPhase.done :: post) =
        runningCount pre + runningCount post := by
      simp [runningCount_append, runningCount]
    omega

theorem lookupChain_of_found (find : Module → Option License × Option String)
    (translate : Module → Module) (m : Module) (l : License)
    (h : find m = (some l, none)) :
    lookupChain find translate m = ((some l, none), 1, 0) := by
  simp [lookupChain, h]

theorem lookupChain_of_fallback (find : Module → Option License × Option String)
    (translate : Module → Module) (m : Module)
    (h : (find m).1 = none ∨ (find m).2 ≠ none) :
    lookupChain find translate m = (find (translate m), 2, 1) := by
  rcases hfm : find m with ⟨a, b⟩
  rw [hfm] at h
  rcases h with h | h
  · subst h
    simp [lookupChain, hfm]
  · cases b with
    | none => exact absurd rfl h
    | some s => simp [lookupChain, hfm]

theorem lookupChain_fc_pos (find : Module → Option License × Option String)
    (translate : Module → Module) (m : Module) :
    1 ≤ (lookupChain find translate m).2.1 := by
  by_cases hb : ((find m).1.isNone || (find m).2.isSome) = true
  · simp [lookupChain, hb]
  · simp [lookupChain, hb]

theorem cacheMissArm_cases (find : Module → Option License × Option String)
    (translate : Module → Module) (now : Nat)
    (lookup : String → Option Nat) (modules : List CachedModule) (m : Module)
    (r : StepOut) (hr : cacheMissArm find translate now lookup modules m = r) :
    (totalSubRecords r.modules ≠ totalSubRecords modules →
      (∃ l, r.lic = some l) ∧ r.err = none) ∧
    ((r.lic = none ∨ r.err ≠ none) → r.modules = modules ∧ 1 ≤ r.finderCalls) := by
  have hfc := lookupChain_fc_pos find translate m
  rcases hc : lookupChain find translate m with ⟨⟨a, b⟩, fc, tc⟩
  rw [hc] at hfc
  simp only at hfc
  rw [cacheMissArm, hc] at hr
  cases a with
  | some l =>
    cases b with
    | none =>
      cases hlp : lookup m.path with
      | some j =>
        rw [hlp] at hr
        subst hr
        constructor
        · intro hne
          exact absurd rfl hne
        · rintro (h | h) <;> simp at h
      | none =>
        rw [hlp] at hr
        subst hr
        constructor
        · intro _
          exact ⟨⟨l, rfl⟩, rfl⟩
        · rintro (h | h) <;> simp at h
    | some e =>
      simp only at hr
      subst hr
      constructor
      · intro hne
        exact absurd rfl hne
      · intro _
        exact ⟨rfl, hfc⟩
  | none =>
    simp only at hr
    subst hr
    constructor
    · intro hne
      exact absurd rfl hne
    · intro _
      exact ⟨rfl, hfc⟩

theorem lastMatchAux_spec (m : Module) (l : List ModuleVersionLicense) :
    ∀ (s : Nat) (acc : Option (Nat × ModuleVersionLicense)) (k : Nat)
      (vv : ModuleVersionLicense),
      lastMatchAux m l s acc = some (k, vv) →
      (acc = some (k, vv) ∨
        ∃ j, k = s + j ∧ l.get? j = some vv ∧ vv.version = m.version) ∧
      (∀ j u, l.get? j = some u → u.version = m.version → s + j ≤ k) := by
  induction l with
  | nil =>
    intro s acc k vv h
    refine ⟨Or.inl h, ?_⟩
    intro j u hj
    cases j <;> simp at hj
  | cons a rest ih =>
    intro s acc k vv h
    by_cases hv : a.version = m.version
    · simp only [lastMatchAux, if_pos hv] at h
      obtain ⟨h1, h2⟩ := ih (s+1) (some (s, a)) k vv h
      have hk_ge : s ≤ k := by
        rcases h1 with h1 | ⟨j, hj1, _, _⟩
        · injection h1 with h1
          have : s = k := congrArg Prod.fst h1
          omega
        · omega
      constructor
      · rcases h1 with h1 | ⟨j, hj1, hj2, hj3⟩
        · injection h1 with h1
          have hs : s = k := congrArg Prod.fst h1
          have ha : a = vv := congrArg Prod.snd h1
          refine Or.inr ⟨0, by omega, ?_, ?_⟩
          · rw [show ((a :: rest).get? 0 = some a) from rfl, ha]
          · rw [← ha]
            exact hv
        · exact Or.inr ⟨j+1, by omega, hj2, hj3⟩
      · intro j u hj hu
        cases j with
        | zero => simpa using hk_ge
        | succ j2 =>
          have := h2 j2 u hj hu
          omega
    · simp only [lastMatchAux, if_neg hv] at h
      obtain ⟨h1, h2⟩ := ih (s+1) acc k vv h
      constructor
      · rcases h1 with h1 | ⟨j, hj1, hj2, hj3⟩
        · exact Or.inl h1
        · exact Or.inr ⟨j+1, by omega, hj2, hj3⟩
      · intro j u hj hu
        cases j with
        | zero =>
          injection hj with hj
          subst hj
          exact absurd hu hv
        | succ j2 =>
          have := h2 j2 u hj hu
          omega

theorem dedup_foldl_nodup (l : List Module) :
    ∀ acc : List Module, acc.Nodup →
      (l.foldl (fun acc m => if m ∈ acc then acc else acc ++ [m]) acc).Nodup := by
  induction l with
  | nil => intro acc h; exact h
  | cons m rest ih =>
    intro acc h
    simp only [List.foldl_cons]
    by_cases hm : m ∈ acc
    · simpa [hm] using ih acc h
    · have hstep : (acc ++ [m]).Nodup := by
        rw [List.nodup_append]
        refine ⟨h, List.nodup_singleton m, ?_⟩
        intro a ha hb
        simp at hb
        subst hb
        exact hm ha
      simpa [hm] using ih _ hstep

theorem dedup_foldl_mem (x : Module) (l : List Module) :
    ∀ acc : List Module,
      (x ∈ l.foldl (fun acc m => if m ∈ acc then acc else acc ++ [m]) acc ↔
        x ∈ acc ∨ x ∈ l) := by
  induction l with
  | nil => intro acc; simp
  | cons m rest ih =>
    intro acc
    simp only [List.foldl_cons]
    by_cases hm : m ∈ acc
    · rw [if_pos hm, ih]
      simp only [List.mem_cons]
      constructor
      · rintro (h | h)
        · exact Or.inl h
        · exact Or.inr (Or.inr h)
      · rintro (h | h | h)
        · exact Or.inl h
        · exact Or.inl (h ▸ hm)
        · exact Or.inr h
    · rw [if_neg hm, ih]
      simp only [List.mem_append, List.mem_singleton, List.mem_cons]
      tauto

/-! ### Claim theorems -/

/-- Claim C6: for a module resolved with no cache configured, the final
outcome equals the finder chain applied to the module when that yields a
record without error (one find, no translation); otherwise it equals the
finder chain applied to the translated module — including absence when both
attempts fail — with the direct attempt strictly before the translated
one. -/
theorem claim6_no_cache_order (find : Module → Option License × Option String)
    (translate : Module → Module) (now : Nat) (lookup : String → Option Nat)
    (modules : List CachedModule) (m : Module) :
    ((∃ l, find m = (some l, none)) →
      resolveOne false find translate now lookup modules m =
        Except.ok { modules := modules, lic := (find m).1, err := (find m).2
                  , finderCalls := 1, translateCalls := 0 }) ∧
    (((find m).1 = none ∨ (find m).2 ≠ none) →
      resolveOne false find translate now lookup modules m =
        Except.ok { modules := modules, lic := (find (translate m)).1
                  , err := (find (translate m)).2
                  , finderCalls := 2, translateCalls := 1 }) := by
  constructor
  · rintro ⟨l, hl⟩
    have hc := lookupChain_of_found find translate m l hl
    simp [resolveOne, hc, hl]
  · intro h
    have hc := lookupChain_of_fallback find translate m h
    simp [resolveOne, hc]

/-- Witness for C6 at a concrete finder that succeeds directly. -/
theorem claim6_witness :
    resolveOne false findBSD (fun m => m) 0 (fun _ => none) [] modV2 =
      Except.ok { modules := [], lic := some bsd, err := none
                , finderCalls := 1, translateCalls := 0 } :=
  (claim6_no_cache_order findBSD (fun m => m) 0 (fun _ => none) [] modV2).1 ⟨bsd, rfl⟩

/-- Claim C3: a module whose `(path, version)` is cached with a matching
hash (the cache entry keeping the spec's one-sub-record-per-version
invariant) resolves to the cached license with zero finder and zero
translator invocations, and the sub-record's `last_used_at` is rewritten to
the current tick, which is at least its previous value. -/
theorem claim3_cache_hit (find : Module → Option License × Option String)
    (translate : Module → Module) (now : Nat) (lookup : String → Option Nat)
    (modules : List CachedModule) (m : Module) (i k : Nat)
    (cca : CachedModule) (vv : ModuleVersionLicense)
    (hl : lookup m.path = some i)
    (hi : modules.get? i = some cca)
    (hwf : cca.verLic.Pairwise (fun a b => a.version ≠ b.version))
    (hk : cca.verLic.get? k = some vv)
    (hv : vv.version = m.version)
    (hh : vv.hash = m.hash)
    (hnow : vv.lastUsed ≤ now) :
    resolveOne true find translate now lookup modules m =
      Except.ok { modules := updateAt (touchEntry now k) i modules
                , lic := some { name := vv.license, spdx := vv.spdx }
                , err := none, finderCalls := 0, translateCalls := 0 } ∧
    ∃ cca2, (updateAt (touchEntry now k) i modules).get? i = some cca2 ∧
      cca2.verLic.get? k = some { vv with lastUsed := now } ∧
      vv.lastUsed ≤ now := by
  have hok : ∀ u ∈ cca.verLic, u.version = m.version → u.hash = m.hash :=
    hashOk_of_pairwise m cca.verLic hwf k vv hk hv hh
  have hscan : findScan m cca.verLic 0 none = Except.ok (some (0 + k, vv)) := by
    rw [findScan_of_hashOk m cca.verLic hok 0 none,
        lastMatchAux_of_uniqueMatch m cca.verLic hwf k vv hk hv 0 none]
  rw [Nat.zero_add] at hscan
  have hi2 : modules[i]? = some cca := by
    rw [← List.get?_eq_getElem?]
    exact hi
  constructor
  · simp [resolveOne, hl, hi2, hscan]
  · refine ⟨touchEntry now k cca, updateAt_get_self _ modules i cca hi, ?_, hnow⟩
    have h2 := updateAt_get_self (touchRecord now) cca.verLic k vv hk
    simpa [touchEntry, touchRecord] using h2

/-- Witness for C3 at a concrete cache hit. -/
theorem claim3_witness :
    resolveOne true findBSD (fun m => m) 5 (fun _ => some 0) c3cache c3mod =
      Except.ok { modules := updateAt (touchEntry 5 0) 0 c3cache
                , lic := some { name := c3rec.license, spdx := c3rec.spdx }
                , err := none, finderCalls := 0, translateCalls := 0 } ∧
    ∃ cca2, (updateAt (touchEntry 5 0) 0 c3cache).get? 0 = some cca2 ∧
      cca2.verLic.get? 0 = some { c3rec with lastUsed := 5 } ∧
      c3rec.lastUsed ≤ 5 :=
  claim3_cache_hit findBSD (fun m => m) 5 (fun _ => some 0) c3cache c3mod 0 0
    c3entry c3rec rfl rfl (by simp [c3entry]) rfl rfl rfl (by decide)

/-- Claim C4: a module whose path has a cache entry containing a sub-record
with the module's version but a different hash makes the whole run abort
(`os.Exit(1)`), for any finder and translator: the module's own resolution
is the abort, and a run that reaches this module aborts with no outcomes for
the remaining modules and no cache flush (the flush only happens on a
non-abort run). -/
theorem claim4_hash_mismatch_abort (find : Module → Option License × Option String)
    (translate : Module → Module) (now : Nat) (lookup : String → Option Nat)
    (modules : List CachedModule) (m : Module) (i : Nat)
    (cca : CachedModule) (u : ModuleVersionLicense)
    (hl : lookup m.path = some i)
    (hi : modules.get? i = some cca)
    (hu : u ∈ cca.verLic)
    (huv : u.version = m.version)
    (huh : u.hash ≠ m.hash) :
    resolveOne true find translate now lookup modules m = Except.error () ∧
    ∀ post, runLoop true find translate now lookup modules (m :: post) =
      Except.error () := by
  have hscan := findScan_of_mismatch m cca.verLic u hu huv huh 0 none
  have hi2 : modules[i]? = some cca := by
    rw [← List.get?_eq_getElem?]
    exact hi
  have h1 : resolveOne true find translate now lookup modules m = Except.error () := by
    simp [resolveOne, hl, hi2, hscan]
  refine ⟨h1, fun post => ?_⟩
  simp [runLoop, h1]

/-- Witness for C4 at a concrete mismatched cache entry. -/
theorem claim4_witness :
    resolveOne true findBSD (fun m => m) 0 (fun _ => some 0) c4cache c4mod =
      Except.error () ∧
    runLoop true findBSD (fun m => m) 0 (fun _ => some 0) c4cache [c4mod] =
      Except.error () := by
  have h := claim4_hash_mismatch_abort findBSD (fun m => m) 0 (fun _ => some 0)
    c4cache c4mod 0 { path := "p", verLic := [c4rec] } c4rec rfl rfl
    (by simp) rfl (by decide)
  exact ⟨h.1, h.2 []⟩

/-- Claim C9: the cache only records successes.  If a resolution step grows
the set of cache sub-records, the step produced a license record with no
error; and if the step ended with no record or with an error, the cache list
is exactly unchanged and the step invoked the finder at least once (so an
unresolved pair, being absent from the cache, is looked up again by any
later identical run). -/
theorem claim9_cache_only_success (find : Module → Option License × Option String)
    (translate : Module → Module) (now : Nat) (lookup : String → Option Nat)
    (modules : List CachedModule) (m : Module) (r : StepOut)
    (hok : resolveOne true find translate now lookup modules m = Except.ok r) :
    (totalSubRecords r.modules ≠ totalSubRecords modules →
      (∃ l, r.lic = some l) ∧ r.err = none) ∧
    ((r.lic = none ∨ r.err ≠ none) → r.modules = modules ∧ 1 ≤ r.finderCalls) := by
  cases hlp : lookup m.path with
  | none =>
    simp only [resolveOne, hlp, Except.ok.injEq] at hok
    exact cacheMissArm_cases find translate now lookup modules m r hok
  | some i =>
    cases hgi : modules.get? i with
    | none =>
      simp only [resolveOne, hlp, hgi, Except.ok.injEq] at hok
      exact cacheMissArm_cases find translate now lookup modules m r hok
    | some cca =>
      cases hscan : findScan m cca.verLic 0 none with
      | error e =>
        cases e
        simp only [resolveOne, hlp, hgi, hscan] at hok
        exact Except.noConfusion hok
      | ok o =>
        cases o with
        | none =>
          simp only [resolveOne, hlp, hgi, hscan, Except.ok.injEq] at hok
          exact cacheMissArm_cases find translate now lookup modules m r hok
        | some p =>
          obtain ⟨index, vv⟩ := p
          simp only [resolveOne, hlp, hgi, hscan, Except.ok.injEq] at hok
          subst hok
          constructor
          · intro _
            exact ⟨⟨_, rfl⟩, rfl⟩
          · rintro (h | h) <;> simp at h

/-- Witness for C9 at a finder that fails both directly and translated. -/
theorem claim9_witness :
    (totalSubRecords ([] : List CachedModule) ≠ totalSubRecords ([] : List CachedModule) →
      (∃ l, (none : Option License) = some l) ∧ (none : Option String) = none) ∧
    (((none : Option License) = none ∨ (none : Option String) ≠ none) →
      ([] : List CachedModule) = [] ∧ 1 ≤ 2) :=
  claim9_cache_only_success (fun _ => (none, none)) (fun m => m) 0 (fun _ => none)
    [] modV2 { modules := [], lic := none, err := none, finderCalls := 2, translateCalls := 1 } rfl

/-- Claim C10: with the module's cache entry in hand, (a) if any sub-record
matches the module's version with a differing hash, resolution aborts the
process — even if another same-version sub-record matches the hash; (b) if
all same-version sub-records match the hash, the last version match in list
order supplies the returned license (and is the record whose `last_used_at`
is touched); (c) `lastVersionMatch` really is the last: it is a version
match of the list and every version match has an index at most its index. -/
theorem claim10_scan_all_matches (find : Module → Option License × Option String)
    (translate : Module → Module) (now : Nat) (lookup : String → Option Nat)
    (modules : List CachedModule) (m : Module) (i : Nat) (cca : CachedModule)
    (hl : lookup m.path = some i)
    (hi : modules.get? i = some cca) :
    ((∃ u ∈ cca.verLic, u.version = m.version ∧ u.hash ≠ m.hash) →
      resolveOne true find translate now lookup modules m = Except.error ()) ∧
    (∀ k vv, lastVersionMatch m cca.verLic = some (k, vv) →
      (∀ u ∈ cca.verLic, u.version = m.version → u.hash = m.hash) →
      resolveOne true find translate now lookup modules m =
        Except.ok { modules := updateAt (touchEntry now k) i modules
                  , lic := some { name := vv.license, spdx := vv.spdx }
                  , err := none, finderCalls := 0, translateCalls := 0 }) ∧
    (∀ k vv, lastVersionMatch m cca.verLic = some (k, vv) →
      cca.verLic.get? k = some vv ∧ vv.version = m.version ∧
      ∀ j u, cca.verLic.get? j = some u → u.version = m.version → j ≤ k) := by
  have hi2 : modules[i]? = some cca := by
    rw [← List.get?_eq_getElem?]
    exact hi
  refine ⟨?_, ?_, ?_⟩
  · rintro ⟨u, hu, huv, huh⟩
    have hscan := findScan_of_mismatch m cca.verLic u hu huv huh 0 none
    simp [resolveOne, hl, hi2, hscan]
  · intro k vv hlast hok
    have hlast2 : lastMatchAux m cca.verLic 0 none = some (k, vv) := hlast
    have hscan : findScan m cca.verLic 0 none = Except.ok (some (k, vv)) := by
      rw [findScan_of_hashOk m cca.verLic hok 0 none, hlast2]
    simp [resolveOne, hl, hi2, hscan]
  · intro k vv hlast
    have hlast2 : lastMatchAux m cca.verLic 0 none = some (k, vv) := hlast
    obtain ⟨h1, h2⟩ := lastMatchAux_spec m cca.verLic 0 none k vv hlast2
    rcases h1 with h1 | ⟨j, hj1, hj2, hj3⟩
    · exact absurd h1 (by simp)
    · refine ⟨?_, hj3, ?_⟩
      · rw [hj1, Nat.zero_add]
        exact hj2
      · intro j2 u hju huv
        have := h2 j2 u hju huv
        omega

/-- Witness for C10: two same-version matching sub-records; the later one
(license `B`) supplies the result. -/
theorem claim10_witness :
    resolveOne true findBSD (fun m => m) 5 (fun _ => some 0) c10cache c3mod =
      Except.ok { modules := updateAt (touchEntry 5 1) 0 c10cache
                , lic := some { name := c10recB.license, spdx := c10recB.spdx }
                , err := none, finderCalls := 0, translateCalls := 0 } :=
  ((claim10_scan_all_matches findBSD (fun m => m) 5 (fun _ => some 0) c10cache c3mod
      0 { path := "p", verLic := [c10recA, c10recB] } rfl rfl).2.1) 1 c10recB rfl
    (by decide)

/-- Claim C7: in the semaphore discipline the spawned tasks follow (acquire
a slot, holding fewer than 5, before any cache/finder/translator work;
release before returning), every state reachable from the all-waiting start
has at most 5 tasks holding a slot, whatever the size of the spawned set. -/
theorem claim7_semaphore_bound (mods : List Module) (s : List TaskPhase)
    (h : Relation.ReflTransGen SemStep
      (List.replicate (spawnedModules mods).length TaskPhase.waiting) s) :
    runningCount s ≤ 5 := by
  induction h with
  | refl =>
    rw [runningCount_replicate]
    omega
  | tail hab hbc ih => exact semStep_bound hbc ih

/-- Witness for C7 at the initial state of a seven-module run. -/
theorem claim7_witness :
    runningCount (List.replicate (spawnedModules sevenMods).length TaskPhase.waiting) ≤ 5 :=
  claim7_semaphore_bound sevenMods _ Relation.ReflTransGen.refl

/-- Counterexample to claim C8 as stated: two extracted modules sharing path
and version but differing in hash are NOT deduplicated — both survive
`allMods` (a set keyed by the whole `module.Module` value) and both get
their own task and finished event, so two outcomes carry the same
`(path, version)` pair. -/
theorem claim8_counterexample :
    dedupMods [mA, mB] = [mA, mB] ∧
    mA.path = mB.path ∧ mA.version = mB.version ∧ mA ≠ mB ∧
    (engineRun false findBSD (fun m => m) 0 [] [mA, mB]).map
      (fun r => r.2.map (fun o => (o.mod.path, o.mod.version))) =
      Except.ok [("p", "v"), ("p", "v")] :=
  ⟨rfl, rfl, rfl, by decide, rfl⟩

/-- Claim C8 amended: before resolution begins, the extracted modules are
deduplicated by the full `(path, version, hash)` value — `dedupMods` has no
duplicate module value, and it keeps exactly the modules that were
extracted. -/
theorem claim8_dedup_full_identity (mods : List Module) (x : Module) :
    (dedupMods mods).Nodup ∧ (x ∈ dedupMods mods ↔ x ∈ mods) := by
  constructor
  · exact dedup_foldl_nodup mods [] List.nodup_nil
  · have h := dedup_foldl_mem x mods []
    simpa [dedupMods] using h

/-- Witness for the amended C8 at the two-module example. -/
theorem claim8_witness :
    (dedupMods [mA, mB]).Nodup ∧ (mA ∈ dedupMods [mA, mB] ↔ mA ∈ [mA, mB]) :=
  claim8_dedup_full_identity [mA, mB] mA

/-- Claim C1 evaluated (code bug): seven distinct modules deduplicate to
seven, but the spawn loop stops after `count > 5`, so only six goroutines
are created and the run reports six finished events, not seven.  This is the
loop `count++; go ...; if count > 5 break` of `realMain`, which contradicts
its own comment that it kicks off all the license lookups. -/
theorem claim1_spawn_truncated :
    (dedupMods sevenMods).length = 7 ∧
    (spawnedModules (dedupMods sevenMods)).length = 6 ∧
    (engineRun false findBSD (fun m => m) 0 [] sevenMods).map
      (fun r => r.2.length) = Except.ok 6 :=
  ⟨rfl, rfl, rfl⟩

/-- Claim C2 evaluated (code bug): the module `(p, v2)` resolves
successfully (license record, no error) with a cache configured and path `p`
already present in the cache, so the engine executes its sub-record append —
but the append lands in a local copy of the map value that is never stored
back, and the cache serialized at shutdown is exactly the input cache, which
contains no sub-record for version `v2`. -/
theorem claim2_lost_append :
    engineRun true findBSD (fun m => m) 1 cacheP [modV2] =
      Except.ok (cacheP,
        [{ mod := modV2, lic := some bsd, err := none, finderCalls := 1 }]) ∧
    cacheP.map (fun e => e.verLic.map (fun r0 => r0.version)) = [["v1"]] :=
  ⟨rfl, rfl⟩

/-- Claim C5 evaluated (code bug): running the same one-module set twice
against the same cache, the first run resolves `(p, v2)` and executes the
cache-record step, yet its output cache equals its input cache, so the
second run — started on the first run's output — misses the cache and
invokes the finder once more (`finderCalls = 1` instead of the claimed
zero).  The records themselves agree across the runs. -/
theorem claim5_second_run_finds_again :
    engineRun true findBSD (fun m => m) 1 cacheP [modV2] =
      Except.ok (cacheP,
        [{ mod := modV2, lic := some bsd, err := none, finderCalls := 1 }]) ∧
    engineRun true findBSD (fun m => m) 2 cacheP [modV2] =
      Except.ok (cacheP,
        [{ mod := modV2, lic := some bsd, err := none, finderCalls := 1 }]) :=
  ⟨rfl, rfl⟩

end Golicense
